import Mathlib

/-!
# Verification of the `bvl` inventory record/audit-log core

Shallow embedding of the `inventory` Go package (model.go, db.go,
iterator.go, inventory.go): the Item model, the remarks-formatting rule,
the database state with its SQLite-backed operations, the paged listing,
the streaming iterator, and the transaction wrapper.

SQL statements are embedded by their SQLite semantics over an explicit
table state (a list of rows plus the `sqlite_sequence` counter for the
`inventory` table).  The injected clock (`gen.BST().Format("2006-01-02
15:04")`) is modelled as a `Timestamp` record rendered to the fixed
`YYYY-MM-DD HH:MM` shape.
-/

namespace Bvl

/-- `Item` from model.go: one inventory record. -/
structure Item where
  ID : Int
  Description : String
  Location : String
  Status : String
  Remarks : String
deriving DecidableEq, Repr

/-- Go's `unicode.IsSpace` (the White_Space property), used by
`strings.TrimSpace` in `FormatRemarks`. -/
def goIsSpace (c : Char) : Bool :=
  c = '\t' || c = '\n' || c = '\x0b' || c = '\x0c' || c = '\r' || c = ' ' ||
  c = '\x85' || c = '\xa0' || c = ' ' ||
  (' ' ≤ c && c ≤ ' ') ||
  c = ' ' || c = ' ' || c = ' ' || c = ' ' || c = '　'

/-- Go's `strings.TrimSpace`: drop white space from both ends. -/
def goTrimSpace (s : String) : String :=
  ⟨((s.data.dropWhile goIsSpace).reverse.dropWhile goIsSpace).reverse⟩

/-- The anchored regular expression `reLogPrefix` from model.go,
`^\[\d{4}-\d{2}-\d{2} \d{2}:\d{2}\]`, as a check on the leading
characters of a string (`MatchString` with a `^`-anchored pattern
succeeds exactly when some leading segment matches). -/
def matchLogStamp : List Char → Bool
  | '[' :: a :: b :: c :: d :: '-' :: e :: f :: '-' :: g :: h :: ' ' ::
      i :: j :: ':' :: k :: l :: ']' :: _ =>
    a.isDigit && b.isDigit && c.isDigit && d.isDigit &&
    e.isDigit && f.isDigit && g.isDigit && h.isDigit &&
    i.isDigit && j.isDigit && k.isDigit && l.isDigit
  | _ => false

/-- Modelled from the spec: the injected clock abstraction
(`gen.BST()` from the external `boseji/bsg/gen` library, not part of
this repository) delivers a wall-clock instant; only its rendered
`YYYY-MM-DD HH:MM` form matters to the core. -/
structure Timestamp where
  year : Nat
  month : Nat
  day : Nat
  hour : Nat
  minute : Nat
deriving DecidableEq, Repr

/-- Two-digit zero-padded decimal rendering (Go layout `01`, `02`,
`15`, `04`). -/
def pad2 (n : Nat) : String :=
  ⟨[Nat.digitChar (n / 10 % 10), Nat.digitChar (n % 10)]⟩

/-- Four-digit zero-padded decimal rendering (Go layout `2006`). -/
def pad4 (n : Nat) : String :=
  ⟨[Nat.digitChar (n / 1000 % 10), Nat.digitChar (n / 100 % 10),
    Nat.digitChar (n / 10 % 10), Nat.digitChar (n % 10)]⟩

/-- Modelled from the spec: `gen.BST().Format("2006-01-02 15:04")`,
the timestamp string of the form `YYYY-MM-DD HH:MM`. -/
def tsFormat (t : Timestamp) : String :=
  pad4 t.year ++ "-" ++ pad2 t.month ++ "-" ++ pad2 t.day ++ " " ++
    pad2 t.hour ++ ":" ++ pad2 t.minute

/-- `Item.FormatRemarks` from model.go, with the clock injected.
Trims the remarks; blank remarks render to just the bracketed stamp
and a space; already-stamped remarks are returned unchanged (the
original, untrimmed field); otherwise the stamp is prefixed to the
trimmed text. -/
def FormatRemarks (ts : Timestamp) (item : Item) : String :=
  let r := goTrimSpace item.Remarks
  if r = "" then
    "[" ++ tsFormat ts ++ "] "
  else if matchLogStamp r.data then
    item.Remarks
  else
    "[" ++ tsFormat ts ++ "] " ++ r

/-- `IndexStart` from inventory.go: starting value of the id sequence. -/
def IndexStart : Int := 1000

/-- The persistent state the core operates on: the `inventory` table's
rows and the `sqlite_sequence` counter for `inventory`. -/
structure DBState where
  table : List Item
  seq : Int
deriving DecidableEq, Repr

/-- `OpenDB` on a path with no existing database: the `CREATE TABLE`
yields an empty table and, since no `sqlite_sequence` row exists, the
guarded `INSERT INTO sqlite_sequence` sets the counter to the floor
(`IndexStart` in db.go; kept as a parameter so the floor can vary). -/
def openFresh (floor : Int) : DBState :=
  { table := [], seq := floor }

/-- Largest id present in the table (SQLite treats an empty table as
contributing 0 when picking the next AUTOINCREMENT rowid). -/
def maxId (l : List Item) : Int :=
  l.foldl (fun m it => max m it.ID) 0

/-- One timestamped log line `[YYYY-MM-DD HH:MM] message`, as built by
`fmt.Sprintf("[%s] %s", t, message)` in `AppendRemarksEntry`. -/
def fmtEntry (e : Timestamp × String) : String :=
  "[" ++ tsFormat e.1 ++ "] " ++ e.2

/-- `AddItem` from db.go: `INSERT INTO inventory (description,
location, status, remarks) VALUES (?, ?, ?, ?)` with the remarks passed
through `FormatRemarks`.  SQLite AUTOINCREMENT assigns
`max(seq, max rowid) + 1` and advances the sequence to the new id. -/
def AddItem (ts : Timestamp) (db : DBState) (item : Item) :
    Except String DBState :=
  let newId := max db.seq (maxId db.table) + 1
  .ok { table := db.table ++
          [{ ID := newId, Description := item.Description,
             Location := item.Location, Status := item.Status,
             Remarks := FormatRemarks ts item }],
        seq := newId }

/-- `AppendItem` from db.go: `INSERT OR REPLACE INTO inventory` keyed
by the explicit id, remarks passed through `FormatRemarks`. -/
def AppendItem (ts : Timestamp) (db : DBState) (item : Item) :
    Except String DBState :=
  let row : Item :=
    { ID := item.ID, Description := item.Description,
      Location := item.Location, Status := item.Status,
      Remarks := FormatRemarks ts item }
  .ok { table := (db.table.filter (fun it => !(it.ID == item.ID))) ++ [row],
        seq := max db.seq item.ID }

/-- The row transformer of the atomic append expression
`remarks = COALESCE(remarks, '') || char(10) || ?` applied to rows
matching `WHERE id = ?`.  Remarks written by this core are never NULL,
so `COALESCE` is the identity here. -/
def appendUpd (id : Int) (s : String) (it : Item) : Item :=
  if it.ID == id then { it with Remarks := it.Remarks ++ s } else it

/-- `AppendRemarksEntry` from db.go: the atomic `UPDATE ... SET remarks
= COALESCE(remarks, '') || char(10) || ? WHERE id = ?`; when the
affected-row count is zero it reports `append failed: no such ID`. -/
def AppendRemarksEntry (ts : Timestamp) (db : DBState) (id : Int)
    (message : String) : Except String DBState :=
  let entry := fmtEntry (ts, message)
  let affected := db.table.countP (fun it => it.ID == id)
  if affected == 0 then
    .error "append failed: no such ID"
  else
    .ok { db with table := db.table.map (appendUpd id ("\n" ++ entry)) }

/-- `EditItem` from db.go: `UPDATE inventory SET description = ?,
location = ?, status = ?, remarks = COALESCE(remarks, '') || char(10)
|| ? WHERE id = ?`; the appended text is `item.FormatRemarks()`; a
missing id updates no rows and is not an error. -/
def EditItem (ts : Timestamp) (db : DBState) (item : Item) :
    Except String DBState :=
  .ok { db with table := db.table.map (fun it =>
          if it.ID == item.ID then
            { ID := it.ID, Description := item.Description,
              Location := item.Location, Status := item.Status,
              Remarks := it.Remarks ++ "\n" ++ FormatRemarks ts item }
          else it) }

/-- `DeleteItem` from db.go: `DELETE FROM inventory WHERE id = ?`;
a missing id is a silent no-op. -/
def DeleteItem (db : DBState) (id : Int) : Except String DBState :=
  .ok { db with table := db.table.filter (fun it => !(it.ID == id)) }

/-- The relation on items realising `ORDER BY id` ascending. -/
def leById (a b : Item) : Prop := a.ID ≤ b.ID

instance : DecidableRel leById := fun a b => Int.decLe a.ID b.ID

instance : IsTotal Item leById := ⟨fun a b => Int.le_total a.ID b.ID⟩

instance : IsTrans Item leById := ⟨fun _ _ _ => Int.le_trans⟩

/-- Result order of a `SELECT ... ORDER BY id` over the table. -/
def sortById (l : List Item) : List Item :=
  l.insertionSort leById

/-- `ListAll` from db.go: `SELECT id, description, location, status,
remarks FROM inventory ORDER BY id`. -/
def ListAll (db : DBState) : List Item :=
  sortById db.table

/-- `ListItemsPaged` from db.go: `SELECT ... WHERE id > ? ORDER BY id
LIMIT ?`.  SQLite applies a non-negative LIMIT as a cap and treats a
negative LIMIT as "no upper bound". -/
def ListItemsPaged (db : DBState) (afterID limit : Int) : List Item :=
  let matching := sortById (db.table.filter (fun it => afterID < it.ID))
  if limit < 0 then matching else matching.take limit.toNat

/-- `GetItemByID` from db.go: single-row fetch, `item <id> not found`
when no row matches. -/
def GetItemByID (db : DBState) (id : Int) : Except String Item :=
  match (sortById db.table).find? (fun it => it.ID == id) with
  | some it => .ok it
  | none => .error "item not found"

/-- `ItemIterator` from iterator.go: holds the `sql.Rows` cursor, here
the not-yet-consumed rows of the executed query. -/
structure ItemIterator where
  rows : List Item
deriving DecidableEq, Repr

/-- The optional `WHERE` clause of `NewItemIterator`: the empty string
(select all) or a predicate fragment with its bound arguments. -/
def IterFilter : Type := Option (Item → Bool)

/-- `NewItemIterator` from iterator.go: executes `SELECT id,
description, location, status, remarks FROM inventory <where> ORDER BY
id` and wraps the resulting cursor. -/
def NewItemIterator (db : DBState) (filt : IterFilter) : ItemIterator :=
  match filt with
  | none => ⟨sortById db.table⟩
  | some p => ⟨sortById (db.table.filter p)⟩

/-- The zero `Item`, what Go's `var item Item` leaves when
`rows.Next()` reports exhaustion. -/
def Item.zero : Item := ⟨0, "", "", "", ""⟩

/-- `ItemIterator.Next` from iterator.go: `(item, hasMore)` plus the
advanced cursor; at exhaustion the zero item with `hasMore = false`. -/
def ItemIterator.next (it : ItemIterator) : Item × Bool × ItemIterator :=
  match it.rows with
  | [] => (Item.zero, false, ⟨[]⟩)
  | x :: xs => (x, true, ⟨xs⟩)

/-- The documented consumption loop: call `Next` until `hasMore` is
false, collecting the items.  Fuel bounds the loop so it stays a total
function; any fuel at least the row count drains the cursor. -/
def drainFuel : Nat → ItemIterator → List Item
  | 0, _ => []
  | Nat.succ n, it =>
    match it.next with
    | (x, more, it2) => if more then x :: drainFuel n it2 else []

/-- `WithTransaction` from inventory.go.  `beginOk` and `commitOk`
model whether `db.Begin()` and `tx.Commit()` succeed; `fn` is the
transaction body over the state.  The result is the committed state
visible afterwards together with the returned error, if any: on begin
failure or body failure or commit failure the original state stands
(rollback / nothing committed). -/
def WithTransaction (beginOk commitOk : Bool)
    (fn : DBState → Except String DBState) (db : DBState) :
    DBState × Option String :=
  if beginOk = false then
    (db, some "begin tx failed")
  else
    match fn db with
    | .error e => (db, some e)
    | .ok db2 =>
      if commitOk then (db2, none) else (db, some "commit tx failed")

/-- A sequence of `AppendRemarksEntry` calls on the same id, threading
the state and stopping at the first error. -/
def appendAll (db : DBState) (id : Int)
    (entries : List (Timestamp × String)) : Except String DBState :=
  entries.foldlM (fun s e => AppendRemarksEntry e.1 s id e.2) db

/-- The text the whole sequence of audit-appends adds after the prior
remarks: one `\n`-prefixed stamped line per call, in call order. -/
def auditSuffix (entries : List (Timestamp × String)) : String :=
  entries.foldr (fun e acc => "\n" ++ fmtEntry e ++ acc) ""

/-- Split a character sequence at newline characters; the separators
themselves are dropped, so `n` newlines yield `n + 1` fields. -/
def splitNl : List Char → List (List Char)
  | [] => [[]]
  | c :: cs =>
    if c = '\n' then [] :: splitNl cs
    else
      match splitNl cs with
      | [] => [[c]]
      | l :: ls => (c :: l) :: ls

/-! ## Helper lemmas -/

theorem digitChar_mod_isDigit (n : Nat) :
    (Nat.digitChar (n % 10)).isDigit = true := by
  have h : n % 10 < 10 := Nat.mod_lt _ (by norm_num)
  set k := n % 10 with hk
  interval_cases k <;> rfl

theorem isDigit_ne_nl {c : Char} (h : c.isDigit = true) : ¬ c = '\n' := by
  intro he
  subst he
  exact absurd h (by decide)

theorem digitChar_mod_ne_nl (n : Nat) :
    ¬ Nat.digitChar (n % 10) = '\n' :=
  isDigit_ne_nl (digitChar_mod_isDigit n)

theorem splitNl_ne_nil (l : List Char) : splitNl l ≠ [] := by
  induction l with
  | nil => simp [splitNl]
  | cons c cs ih =>
    simp only [splitNl]
    split
    · simp
    · cases h : splitNl cs with
      | nil => simp
      | cons x xs => simp [h]

theorem splitNl_append_nl (a b : List Char) :
    splitNl (a ++ '\n' :: b) = splitNl a ++ splitNl b := by
  induction a with
  | nil => simp [splitNl]
  | cons c cs ih =>
    simp only [List.cons_append, splitNl]
    split
    · simp [ih]
    · simp only [List.append_eq]
      rw [ih]
      cases h : splitNl cs with
      | nil => exact absurd h (splitNl_ne_nil cs)
      | cons x xs => simp [h]

theorem splitNl_of_no_nl {l : List Char} (h : ('\n' : Char) ∉ l) :
    splitNl l = [l] := by
  induction l with
  | nil => rfl
  | cons c cs ih =>
    simp only [List.mem_cons, not_or] at h
    simp only [splitNl]
    rw [if_neg (fun hc => h.1 hc.symm), ih h.2]

/-- The character-level shape of one stamped audit line. -/
theorem fmtEntry_data (t : Timestamp) (m : String) :
    (fmtEntry (t, m)).data =
      '[' :: Nat.digitChar (t.year / 1000 % 10) ::
      Nat.digitChar (t.year / 100 % 10) ::
      Nat.digitChar (t.year / 10 % 10) :: Nat.digitChar (t.year % 10) ::
      '-' :: Nat.digitChar (t.month / 10 % 10) ::
      Nat.digitChar (t.month % 10) ::
      '-' :: Nat.digitChar (t.day / 10 % 10) ::
      Nat.digitChar (t.day % 10) ::
      ' ' :: Nat.digitChar (t.hour / 10 % 10) ::
      Nat.digitChar (t.hour % 10) ::
      ':' :: Nat.digitChar (t.minute / 10 % 10) ::
      Nat.digitChar (t.minute % 10) ::
      ']' :: ' ' :: m.data := by
  show (String.mk _).data = _
  simp [fmtEntry, tsFormat, pad4, pad2, String.data_append]

theorem matchLogStamp_fmtEntry (t : Timestamp) (m : String) :
    matchLogStamp (fmtEntry (t, m)).data = true := by
  rw [fmtEntry_data]
  simp [matchLogStamp, digitChar_mod_isDigit]

theorem nl_notMem_fmtEntry {m : String} (hm : ('\n' : Char) ∉ m.data)
    (t : Timestamp) : ('\n' : Char) ∉ (fmtEntry (t, m)).data := by
  rw [fmtEntry_data]
  intro hmem
  simp only [List.mem_cons] at hmem
  rcases hmem with h | h | h | h | h | h | h | h | h | h | h | h | h | h |
    h | h | h | h | h | h
  all_goals first
    | exact absurd h.symm (by decide)
    | exact digitChar_mod_ne_nl _ h.symm
    | exact hm h

theorem appendUpd_ID (id : Int) (s : String) (it : Item) :
    (appendUpd id s it).ID = it.ID := by
  unfold appendUpd
  split <;> rfl

theorem appendUpd_empty (id : Int) (it : Item) :
    appendUpd id "" it = it := by
  unfold appendUpd
  split
  · simp [String.append_empty]
  · rfl

theorem appendUpd_appendUpd (id : Int) (s₁ s₂ : String) (it : Item) :
    appendUpd id s₂ (appendUpd id s₁ it) = appendUpd id (s₁ ++ s₂) it := by
  cases hb : it.ID == id with
  | false => simp [appendUpd, hb]
  | true => simp [appendUpd, hb, String.append_assoc]

/-- A successful audit-append: when some row carries the id, the call
succeeds and rewrites exactly the matching rows by appending the
newline-prefixed stamped entry. -/
theorem appendRemarks_ok {db : DBState} {id : Int} (ts : Timestamp)
    (m : String) (h : ∃ it ∈ db.table, it.ID = id) :
    AppendRemarksEntry ts db id m =
      .ok { db with
            table := db.table.map (appendUpd id ("\n" ++ fmtEntry (ts, m))) } := by
  unfold AppendRemarksEntry
  have hc : db.table.countP (fun it => it.ID == id) ≠ 0 := by
    obtain ⟨it, hmem, hid⟩ := h
    have hp : (fun x : Item => x.ID == id) it = true := by
      show (it.ID == id) = true
      rw [hid]
      exact beq_self_eq_true id
    have := (@List.countP_pos_iff Item db.table
      (fun x => x.ID == id)).mpr ⟨it, hmem, hp⟩
    omega
  simp [hc]

/-- The whole sequence of audit-appends on an id carried by some row
succeeds and appends `auditSuffix entries` to each matching row. -/
theorem appendAll_eq {id : Int} (entries : List (Timestamp × String)) :
    ∀ db : DBState, (∃ it ∈ db.table, it.ID = id) →
      appendAll db id entries =
        .ok { db with
              table := db.table.map (appendUpd id (auditSuffix entries)) } := by
  induction entries with
  | nil =>
    intro db _
    have hf : appendUpd id (auditSuffix []) = fun it => it :=
      funext (appendUpd_empty id)
    simp only [appendAll, List.foldlM_nil, hf, List.map_id_fun']
    rfl
  | cons e es ih =>
    intro db h
    obtain ⟨it, hmem, hid⟩ := h
    have step := appendRemarks_ok e.1 e.2 ⟨it, hmem, hid⟩
    have hmem2 : appendUpd id ("\n" ++ fmtEntry (e.1, e.2)) it ∈
        db.table.map (appendUpd id ("\n" ++ fmtEntry (e.1, e.2))) :=
      List.mem_map_of_mem _ hmem
    have hid2 : (appendUpd id ("\n" ++ fmtEntry (e.1, e.2)) it).ID = id := by
      rw [appendUpd_ID]; exact hid
    have tail := ih { db with
        table := db.table.map (appendUpd id ("\n" ++ fmtEntry (e.1, e.2))) }
      ⟨_, hmem2, hid2⟩
    have hfun : (appendUpd id (auditSuffix es)) ∘
        (appendUpd id ("\n" ++ fmtEntry (e.1, e.2))) =
        appendUpd id (auditSuffix (e :: es)) := by
      funext x
      show appendUpd id (auditSuffix es)
        (appendUpd id ("\n" ++ fmtEntry (e.1, e.2)) x) = _
      rw [appendUpd_appendUpd]
      have harg : ("\n" ++ fmtEntry (e.1, e.2)) ++ auditSuffix es =
          auditSuffix (e :: es) := by
        simp [auditSuffix, String.append_assoc]
      rw [harg]
    show (AppendRemarksEntry e.1 db id e.2 >>= fun s =>
      List.foldlM (fun s e => AppendRemarksEntry e.1 s id e.2) s es) = _
    rw [step]
    show appendAll _ id es = _
    rw [tail]
    simp only [List.map_map, hfun]

/-- Splitting text extended by a run of audit entries: the prior text's
fields followed by one field per entry, in order. -/
theorem splitNl_auditSuffix (entries : List (Timestamp × String)) :
    ∀ r : List Char, (∀ e ∈ entries, ('\n' : Char) ∉ e.2.data) →
      splitNl (r ++ (auditSuffix entries).data) =
        splitNl r ++ entries.map (fun e => (fmtEntry e).data) := by
  induction entries with
  | nil =>
    intro r _
    simp [auditSuffix]
  | cons e es ih =>
    intro r hnl
    have hdata : (auditSuffix (e :: es)).data =
        '\n' :: ((fmtEntry e).data ++ (auditSuffix es).data) := by
      show (("\n" ++ fmtEntry e) ++ auditSuffix es).data = _
      simp only [String.data_append]
      rfl
    rw [hdata, splitNl_append_nl r ((fmtEntry e).data ++ (auditSuffix es).data),
      ih ((fmtEntry e).data) (fun x hx => hnl x (List.mem_cons_of_mem e hx))]
    have hfe : splitNl (fmtEntry e).data = [(fmtEntry e).data] :=
      splitNl_of_no_nl (nl_notMem_fmtEntry (hnl e (List.mem_cons_self e es)) e.1)
    rw [hfe]
    simp

/-! ## C1: append-only growth of the audit log -/

/-- C1.  Append-only growth: starting from a state holding a row with
the target id, a sequence of N audit-appends all succeeds, and the
final remarks of that row split at newlines into the row's prior fields
followed by exactly N entries, in call order, each matching the
`[YYYY-MM-DD HH:MM]` stamp pattern. -/
theorem appendAll_growth (db : DBState) (id : Int)
    (entries : List (Timestamp × String)) (it0 : Item)
    (hmem : it0 ∈ db.table) (hid : it0.ID = id)
    (hnl : ∀ e ∈ entries, ('\n' : Char) ∉ e.2.data) :
    ∃ db' : DBState,
      appendAll db id entries = .ok db' ∧
      ∃ it1 ∈ db'.table, it1.ID = id ∧
        splitNl it1.Remarks.data =
          splitNl it0.Remarks.data ++
            entries.map (fun e => (fmtEntry e).data) ∧
        (entries.map (fun e => (fmtEntry e).data)).length = entries.length ∧
        ∀ l ∈ entries.map (fun e => (fmtEntry e).data),
          matchLogStamp l = true := by
  refine ⟨_, appendAll_eq entries db ⟨it0, hmem, hid⟩,
    appendUpd id (auditSuffix entries) it0, List.mem_map_of_mem _ hmem,
    ?_, ?_, ?_, ?_⟩
  · rw [appendUpd_ID]; exact hid
  · have hrow : appendUpd id (auditSuffix entries) it0 =
        { it0 with Remarks := it0.Remarks ++ auditSuffix entries } := by
      simp [appendUpd, hid]
    rw [hrow]
    show splitNl (it0.Remarks ++ auditSuffix entries).data = _
    rw [String.data_append]
    exact splitNl_auditSuffix entries it0.Remarks.data hnl
  · simp
  · intro l hl
    obtain ⟨e, _, rfl⟩ := List.mem_map.mp hl
    exact matchLogStamp_fmtEntry e.1 e.2

/-- Witness for C1: two appends to id 1001 over a one-row table give
two stamped lines after the original remarks. -/
theorem appendAll_growth_witness :
    ∃ db' : DBState,
      appendAll ⟨[⟨1001, "UPS", "Rack 1", "Operational",
          "[2025-06-20 12:30] installed"⟩], 1001⟩ 1001
        [(⟨2025, 6, 20, 16, 55⟩, "replaced battery"),
         (⟨2025, 6, 21, 9, 5⟩, "tested")] = .ok db' ∧
      ∃ it1 ∈ db'.table, it1.ID = 1001 ∧
        splitNl it1.Remarks.data =
          splitNl "[2025-06-20 12:30] installed".data ++
            [(fmtEntry (⟨2025, 6, 20, 16, 55⟩, "replaced battery")).data,
             (fmtEntry (⟨2025, 6, 21, 9, 5⟩, "tested")).data] ∧
        ([(fmtEntry (⟨2025, 6, 20, 16, 55⟩, "replaced battery")).data,
          (fmtEntry (⟨2025, 6, 21, 9, 5⟩, "tested")).data].length = 2) ∧
        ∀ l ∈ [(fmtEntry (⟨2025, 6, 20, 16, 55⟩, "replaced battery")).data,
               (fmtEntry (⟨2025, 6, 21, 9, 5⟩, "tested")).data],
          matchLogStamp l = true :=
  appendAll_growth
    ⟨[⟨1001, "UPS", "Rack 1", "Operational",
        "[2025-06-20 12:30] installed"⟩], 1001⟩ 1001
    [(⟨2025, 6, 20, 16, 55⟩, "replaced battery"),
     (⟨2025, 6, 21, 9, 5⟩, "tested")]
    ⟨1001, "UPS", "Rack 1", "Operational", "[2025-06-20 12:30] installed"⟩
    (by decide) (by decide) (by decide)

/-! ## C2: not-found asymmetry between Delete and AppendRemarksEntry -/

/-- C2.  For an id carried by no row, `DeleteItem` is a silent no-op
returning success with the state unchanged, while `AppendRemarksEntry`
reports an error because its affected-row count is zero. -/
theorem delete_append_notfound_asym (db : DBState) (id : Int)
    (ts : Timestamp) (msg : String)
    (habs : ∀ it ∈ db.table, it.ID ≠ id) :
    DeleteItem db id = .ok db ∧
    ∃ e, AppendRemarksEntry ts db id msg = .error e := by
  constructor
  · have hfil : db.table.filter (fun it => !(it.ID == id)) = db.table := by
      apply List.filter_eq_self.mpr
      intro a ha
      simp [habs a ha]
    show Except.ok _ = _
    rw [hfil]
  · refine ⟨"append failed: no such ID", ?_⟩
    have hc : db.table.countP (fun it => it.ID == id) = 0 := by
      apply List.countP_eq_zero.mpr
      intro a ha
      simp [habs a ha]
    simp [AppendRemarksEntry, hc]

/-- Witness for C2 at id 42 over a one-row table holding id 1001. -/
theorem delete_append_notfound_asym_witness :
    DeleteItem ⟨[⟨1001, "UPS", "Rack 1", "Operational", ""⟩], 1001⟩ 42 =
      .ok ⟨[⟨1001, "UPS", "Rack 1", "Operational", ""⟩], 1001⟩ ∧
    ∃ e, AppendRemarksEntry ⟨2025, 6, 20, 16, 55⟩
      ⟨[⟨1001, "UPS", "Rack 1", "Operational", ""⟩], 1001⟩ 42 "msg" =
        .error e :=
  delete_append_notfound_asym
    ⟨[⟨1001, "UPS", "Rack 1", "Operational", ""⟩], 1001⟩ 42
    ⟨2025, 6, 20, 16, 55⟩ "msg" (by decide)

/-! ## C9: the append always prepends a newline separator -/

/-- C9.  On a row whose remarks are the empty string (a NULL column
coalesces to the same), one audit-append leaves the field equal to a
newline followed by the stamped message, i.e. beginning with a leading
empty line. -/
theorem appendRemarks_leading_newline (db : DBState) (id : Int)
    (ts : Timestamp) (msg : String) (it0 : Item) (hmem : it0 ∈ db.table)
    (hid : it0.ID = id) (hr : it0.Remarks = "") :
    ∃ db', AppendRemarksEntry ts db id msg = .ok db' ∧
      ∃ it1 ∈ db'.table, it1.ID = id ∧
        it1.Remarks = "\n" ++ ("[" ++ tsFormat ts ++ "] " ++ msg) ∧
        it1.Remarks.data.head? = some '\n' := by
  refine ⟨_, appendRemarks_ok ts msg ⟨it0, hmem, hid⟩,
    appendUpd id ("\n" ++ fmtEntry (ts, msg)) it0,
    List.mem_map_of_mem _ hmem, ?_, ?_, ?_⟩
  · rw [appendUpd_ID]; exact hid
  · have hrow : appendUpd id ("\n" ++ fmtEntry (ts, msg)) it0 =
        { it0 with Remarks := it0.Remarks ++ ("\n" ++ fmtEntry (ts, msg)) } := by
      simp [appendUpd, hid]
    rw [hrow]
    show it0.Remarks ++ ("\n" ++ fmtEntry (ts, msg)) = _
    apply String.ext
    simp [String.data_append, hr, fmtEntry]
  · have hrow : appendUpd id ("\n" ++ fmtEntry (ts, msg)) it0 =
        { it0 with Remarks := it0.Remarks ++ ("\n" ++ fmtEntry (ts, msg)) } := by
      simp [appendUpd, hid]
    rw [hrow]
    show (it0.Remarks ++ ("\n" ++ fmtEntry (ts, msg))).data.head? = _
    simp [String.data_append, hr]

/-- Witness for C9: one append to an empty-remarks row. -/
theorem appendRemarks_leading_newline_witness :
    ∃ db', AppendRemarksEntry ⟨2025, 6, 20, 16, 55⟩
      ⟨[⟨1001, "UPS", "Rack 1", "Operational", ""⟩], 1001⟩ 1001 "hello" =
        .ok db' ∧
      ∃ it1 ∈ db'.table, it1.ID = 1001 ∧
        it1.Remarks =
          "\n" ++ ("[" ++ tsFormat ⟨2025, 6, 20, 16, 55⟩ ++ "] " ++ "hello") ∧
        it1.Remarks.data.head? = some '\n' :=
  appendRemarks_leading_newline
    ⟨[⟨1001, "UPS", "Rack 1", "Operational", ""⟩], 1001⟩ 1001
    ⟨2025, 6, 20, 16, 55⟩ "hello"
    ⟨1001, "UPS", "Rack 1", "Operational", ""⟩
    (by decide) (by decide) (by decide)

/-! ## C10: EditItem formats and appends unconditionally -/

/-- C10.  `EditItem` with a blank (empty or whitespace-only) remarks
field on an existing id still appends a newline plus the empty
timestamped line `[<timestamp>] ` to the stored remarks, besides
replacing the other fields. -/
theorem editItem_blank_appends (db : DBState) (ts : Timestamp)
    (item : Item) (it0 : Item) (hmem : it0 ∈ db.table)
    (hid : it0.ID = item.ID) (hblank : goTrimSpace item.Remarks = "") :
    ∃ db', EditItem ts db item = .ok db' ∧
      ∃ it1 ∈ db'.table, it1.ID = item.ID ∧
        it1.Remarks = it0.Remarks ++ "\n" ++ ("[" ++ tsFormat ts ++ "] ") ∧
        it1.Description = item.Description ∧
        it1.Location = item.Location ∧
        it1.Status = item.Status := by
  have hfr : FormatRemarks ts item = "[" ++ tsFormat ts ++ "] " := by
    simp [FormatRemarks, hblank]
  refine ⟨_, rfl, ?_⟩
  refine ⟨{ ID := it0.ID, Description := item.Description,
            Location := item.Location, Status := item.Status,
            Remarks := it0.Remarks ++ "\n" ++ FormatRemarks ts item },
    ?_, hid, ?_, rfl, rfl, rfl⟩
  · have := List.mem_map_of_mem (fun it : Item =>
      if it.ID == item.ID then
        ({ ID := it.ID, Description := item.Description,
           Location := item.Location, Status := item.Status,
           Remarks := it.Remarks ++ "\n" ++ FormatRemarks ts item } : Item)
      else it) hmem
    simpa [hid] using this
  · show it0.Remarks ++ "\n" ++ FormatRemarks ts item = _
    rw [hfr]

/-- Witness for C10: editing id 1001 with whitespace-only remarks. -/
theorem editItem_blank_appends_witness :
    ∃ db', EditItem ⟨2025, 6, 21, 9, 5⟩
      ⟨[⟨1001, "UPS", "Rack 1", "Operational", "[2025-06-20 12:30] ok"⟩],
        1001⟩
      ⟨1001, "UPS v2", "Rack 2", "Standby", "  "⟩ = .ok db' ∧
      ∃ it1 ∈ db'.table, it1.ID = (1001 : Int) ∧
        it1.Remarks = "[2025-06-20 12:30] ok" ++ "\n" ++
          ("[" ++ tsFormat ⟨2025, 6, 21, 9, 5⟩ ++ "] ") ∧
        it1.Description = "UPS v2" ∧
        it1.Location = "Rack 2" ∧
        it1.Status = "Standby" :=
  editItem_blank_appends
    ⟨[⟨1001, "UPS", "Rack 1", "Operational", "[2025-06-20 12:30] ok"⟩],
      1001⟩
    ⟨2025, 6, 21, 9, 5⟩
    ⟨1001, "UPS v2", "Rack 2", "Standby", "  "⟩
    ⟨1001, "UPS", "Rack 1", "Operational", "[2025-06-20 12:30] ok"⟩
    (by decide) (by decide) (by decide)

/-! ## C4, C5: the remarks formatting contract -/

/-- C4.  `FormatRemarks` works on the whitespace-trimmed remarks: a
blank field renders to the bracketed timestamp with a single trailing
space and no message, and a non-blank field that does not already begin
with a stamp gets the stamp prefixed to the trimmed text. -/
theorem formatRemarks_cases (ts : Timestamp) (item : Item) :
    (goTrimSpace item.Remarks = "" →
      FormatRemarks ts item = "[" ++ tsFormat ts ++ "] ") ∧
    (goTrimSpace item.Remarks ≠ "" →
      matchLogStamp (goTrimSpace item.Remarks).data = false →
      FormatRemarks ts item =
        "[" ++ tsFormat ts ++ "] " ++ goTrimSpace item.Remarks) := by
  constructor
  · intro h
    simp [FormatRemarks, h]
  · intro h1 h2
    simp [FormatRemarks, h1, h2]

/-- Witness for C4: both branches at concrete remarks. -/
theorem formatRemarks_cases_witness :
    FormatRemarks ⟨2025, 6, 21, 14, 30⟩ ⟨0, "", "", "", " hello "⟩ =
      "[" ++ tsFormat ⟨2025, 6, 21, 14, 30⟩ ++ "] " ++ goTrimSpace " hello " ∧
    FormatRemarks ⟨2025, 6, 21, 14, 30⟩ ⟨0, "", "", "", " \t "⟩ =
      "[" ++ tsFormat ⟨2025, 6, 21, 14, 30⟩ ++ "] " :=
  ⟨(formatRemarks_cases ⟨2025, 6, 21, 14, 30⟩ ⟨0, "", "", "", " hello "⟩).2
      (by decide) (by decide),
   (formatRemarks_cases ⟨2025, 6, 21, 14, 30⟩ ⟨0, "", "", "", " \t "⟩).1
      (by decide)⟩

/-- C5.  Idempotent formatting: when the trimmed remarks already begin
with a `[YYYY-MM-DD HH:MM]` stamp, `FormatRemarks` returns the remarks
unchanged. -/
theorem formatRemarks_idem (ts : Timestamp) (item : Item)
    (h : matchLogStamp (goTrimSpace item.Remarks).data = true) :
    FormatRemarks ts item = item.Remarks := by
  have hne : goTrimSpace item.Remarks ≠ "" := by
    intro he
    rw [he] at h
    exact absurd h (by decide)
  simp [FormatRemarks, hne, h]

/-- Witness for C5 at an already-stamped remarks string. -/
theorem formatRemarks_idem_witness :
    FormatRemarks ⟨2025, 6, 21, 14, 30⟩
      ⟨0, "", "", "", "[2024-01-02 03:04] battery replaced"⟩ =
      "[2024-01-02 03:04] battery replaced" :=
  formatRemarks_idem ⟨2025, 6, 21, 14, 30⟩
    ⟨0, "", "", "", "[2024-01-02 03:04] battery replaced"⟩ (by decide)

/-! ## C3: the transaction boundary -/

/-- C3.  `WithTransaction`: a begin failure surfaces as its own error;
a body error rolls back (the prior state stays visible) and propagates
exactly that error; a body success commits when the commit succeeds;
a commit failure surfaces as its own error distinct from the begin
failure, again leaving the prior state. -/
theorem withTransaction_spec (db : DBState)
    (fn : DBState → Except String DBState) (commitOk : Bool) :
    WithTransaction false commitOk fn db = (db, some "begin tx failed") ∧
    (∀ e, fn db = .error e →
      WithTransaction true commitOk fn db = (db, some e)) ∧
    (∀ db2, fn db = .ok db2 →
      (commitOk = true → WithTransaction true commitOk fn db = (db2, none)) ∧
      (commitOk = false →
        WithTransaction true commitOk fn db = (db, some "commit tx failed"))) ∧
    "begin tx failed" ≠ "commit tx failed" := by
  refine ⟨by simp [WithTransaction], ?_, ?_, by decide⟩
  · intro e he
    simp [WithTransaction, he]
  · intro db2 h2
    constructor
    · intro hc
      simp [WithTransaction, h2, hc]
    · intro hc
      simp [WithTransaction, h2, hc]

/-- Witness for C3: a failing body on a concrete state propagates the
body's error with the state unchanged. -/
theorem withTransaction_spec_witness :
    WithTransaction true true (fun _ => Except.error "boom")
      (openFresh 1000) = (openFresh 1000, some "boom") :=
  ((withTransaction_spec (openFresh 1000)
    (fun _ => Except.error "boom") true).2.1) "boom" rfl

/-! ## C6: the id floor -/

/-- C6.  On a fresh (empty) store whose sequence floor is `F ≥ 0`, the
first `AddItem` succeeds and assigns id `F + 1` to the single row. -/
theorem addItem_first_id (floor : Int) (hf : 0 ≤ floor) (ts : Timestamp)
    (item : Item) :
    ∃ db', AddItem ts (openFresh floor) item = .ok db' ∧
      ∃ it1, db'.table = [it1] ∧ it1.ID = floor + 1 := by
  refine ⟨_, rfl,
    { ID := max floor (maxId []) + 1, Description := item.Description,
      Location := item.Location, Status := item.Status,
      Remarks := FormatRemarks ts item }, rfl, ?_⟩
  show max floor (maxId []) + 1 = floor + 1
  have h0 : maxId [] = 0 := rfl
  rw [h0, max_eq_left hf]

/-- Witness for C6 at the default floor `IndexStart = 1000`: the first
id is 1001. -/
theorem addItem_first_id_witness :
    ∃ db', AddItem ⟨2025, 6, 20, 12, 30⟩ (openFresh IndexStart)
        ⟨0, "UPS", "Rack 1", "Operational", "installed"⟩ = .ok db' ∧
      ∃ it1, db'.table = [it1] ∧ it1.ID = IndexStart + 1 :=
  addItem_first_id IndexStart (by decide) ⟨2025, 6, 20, 12, 30⟩
    ⟨0, "UPS", "Rack 1", "Operational", "installed"⟩

/-! ## C7: paged listing -/

/-- The claim fails at a negative limit: SQLite treats a negative
`LIMIT` as "no upper bound", so with one matching row and limit `-1`
the result has one row, not at most `-1`. -/
theorem listItemsPaged_neg_limit_cex :
    ListItemsPaged ⟨[⟨1001, "a", "b", "c", "d"⟩], 1001⟩ 0 (-1) =
      [⟨1001, "a", "b", "c", "d"⟩] ∧
    ¬ (((ListItemsPaged ⟨[⟨1001, "a", "b", "c", "d"⟩], 1001⟩ 0
          (-1)).length : Int) ≤ -1) := by
  decide

/-- C7 (amended to non-negative limits).  For every state, afterID and
limit `≥ 0`, the paged listing is sorted ascending by id, holds only
table rows with id strictly above afterID, has length `min limit
(number of matching rows)`, and is the limit-prefix of a sorted
permutation of the matching rows. -/
theorem listItemsPaged_spec (db : DBState) (afterID limit : Int)
    (hl : 0 ≤ limit) :
    List.Sorted leById (ListItemsPaged db afterID limit) ∧
    (∀ x ∈ ListItemsPaged db afterID limit,
      x ∈ db.table ∧ afterID < x.ID) ∧
    (ListItemsPaged db afterID limit).length =
      min limit.toNat
        (db.table.filter (fun it => afterID < it.ID)).length ∧
    ∃ full : List Item,
      full.Perm (db.table.filter (fun it => afterID < it.ID)) ∧
      List.Sorted leById full ∧
      ListItemsPaged db afterID limit = full.take limit.toNat := by
  have hnotneg : ¬ limit < 0 := not_lt.mpr hl
  have hdef : ListItemsPaged db afterID limit =
      (sortById (db.table.filter (fun it => afterID < it.ID))).take
        limit.toNat := by
    simp [ListItemsPaged, hnotneg]
  have hsorted : List.Sorted leById
      (sortById (db.table.filter (fun it => afterID < it.ID))) :=
    List.sorted_insertionSort leById _
  have hperm : (sortById (db.table.filter (fun it => afterID < it.ID))).Perm
      (db.table.filter (fun it => afterID < it.ID)) :=
    List.perm_insertionSort leById _
  refine ⟨?_, ?_, ?_, sortById (db.table.filter (fun it => afterID < it.ID)),
    hperm, hsorted, hdef⟩
  · rw [hdef]
    exact List.Pairwise.take hsorted
  · intro x hx
    rw [hdef] at hx
    have hxf := List.mem_of_mem_take hx
    have hxfil := hperm.mem_iff.mp hxf
    have hsplit := List.mem_filter.mp hxfil
    exact ⟨hsplit.1, by simpa using hsplit.2⟩
  · rw [hdef, List.length_take, hperm.length_eq]

/-- Witness for C7's amended claim: afterID 0, limit 3 over a two-row
table. -/
theorem listItemsPaged_spec_witness :
    List.Sorted leById
      (ListItemsPaged ⟨[⟨1002, "b", "", "", ""⟩, ⟨1001, "a", "", "", ""⟩],
        1002⟩ 0 3) ∧
    (∀ x ∈ ListItemsPaged ⟨[⟨1002, "b", "", "", ""⟩,
        ⟨1001, "a", "", "", ""⟩], 1002⟩ 0 3,
      x ∈ ([⟨1002, "b", "", "", ""⟩, ⟨1001, "a", "", "", ""⟩] :
        List Item) ∧ (0 : Int) < x.ID) ∧
    (ListItemsPaged ⟨[⟨1002, "b", "", "", ""⟩, ⟨1001, "a", "", "", ""⟩],
        1002⟩ 0 3).length =
      min (Int.toNat 3)
        (([⟨1002, "b", "", "", ""⟩, ⟨1001, "a", "", "", ""⟩] :
          List Item).filter (fun it => (0 : Int) < it.ID)).length ∧
    ∃ full : List Item,
      full.Perm (([⟨1002, "b", "", "", ""⟩, ⟨1001, "a", "", "", ""⟩] :
        List Item).filter (fun it => (0 : Int) < it.ID)) ∧
      List.Sorted leById full ∧
      ListItemsPaged ⟨[⟨1002, "b", "", "", ""⟩, ⟨1001, "a", "", "", ""⟩],
        1002⟩ 0 3 = full.take (Int.toNat 3) :=
  listItemsPaged_spec
    ⟨[⟨1002, "b", "", "", ""⟩, ⟨1001, "a", "", "", ""⟩], 1002⟩ 0 3
    (by decide)

/-! ## C8: iterator / ListAll equivalence -/

/-- Draining a cursor by repeated `Next` with enough fuel returns
exactly the rows it holds, in order. -/
theorem drainFuel_eq (rows : List Item) :
    ∀ fuel : Nat, rows.length ≤ fuel → drainFuel fuel ⟨rows⟩ = rows := by
  induction rows with
  | nil =>
    intro fuel _
    cases fuel <;> simp [drainFuel, ItemIterator.next]
  | cons x xs ih =>
    intro fuel hf
    cases fuel with
    | zero => simp at hf
    | succ n =>
      show (match (x, true, (⟨xs⟩ : ItemIterator)) with
        | (y, more, it2) => if more then y :: drainFuel n it2 else []) = _
      simp only [if_pos]
      rw [ih n (by simpa using hf)]

/-- C8.  With an empty filter clause, creating an iterator and calling
`Next` until `hasMore` is false yields exactly the sequence `ListAll`
returns. -/
theorem iterator_listAll_equiv (db : DBState) (fuel : Nat)
    (hf : (NewItemIterator db none).rows.length ≤ fuel) :
    drainFuel fuel (NewItemIterator db none) = ListAll db :=
  drainFuel_eq (sortById db.table) fuel hf

/-- Witness for C8 over a two-row table with fuel 5. -/
theorem iterator_listAll_equiv_witness :
    drainFuel 5 (NewItemIterator
      ⟨[⟨1002, "b", "", "", ""⟩, ⟨1001, "a", "", "", ""⟩], 1002⟩ none) =
    ListAll ⟨[⟨1002, "b", "", "", ""⟩, ⟨1001, "a", "", "", ""⟩], 1002⟩ :=
  iterator_listAll_equiv
    ⟨[⟨1002, "b", "", "", ""⟩, ⟨1001, "a", "", "", ""⟩], 1002⟩ 5
    (by decide)

end Bvl
